import Mathlib

/-!
Shallow embedding of `sow_bookmark_store.py`: a bookmark store that persists
subscription progress in an AMPS State-of-the-World (SOW) topic.

Modelling conventions.

The external SOW topic (the AMPS server side) is a list of the JSON text
bodies that were published to it, kept verbatim: the code publishes the body
built by the format string
`'\x7b"clientName": "%s", "subId": "%s", "bookmark": "%s"\x7d' % (...)`
with no escaping, and recovery reads the stored text back through
`json.loads`.  Both sides are modelled at string level: `publishBody` is the
format string, and `jsonParse` models `json.loads` on the fragment this
store reads and writes (objects whose keys and values are strings, the
standard single-character backslash escapes, raw control characters
rejected, later duplicate keys winning).  The topic is declared with keys
`/clientName` and `/subId`, so the server keys each accepted body on its
parsed (clientName, subId) pair and a publish is an upsert on that key; a
body the server cannot key (invalid JSON) is not stored, and per the
module's own notes no exception reaches the publisher in that case
("Exceptions are not thrown if the client is connected, but fails to
write").

The recovery query `client.sow(topic, "/clientName = '%s'" % name)` is also
unescaped: the filter string is built by `filterOf` and then interpreted by
the server.  `parseFilter` models the relevant fragment of the server's
filter language — one or more `/clientName = 'literal'` comparisons joined
by OR — and a filter outside the fragment makes the query fail, which
`__init__` re-raises wrapped as "Error reading bookmark store".  A
`json.loads` failure on a returned record is a ValueError, which the
`except AMPS.AMPSException` clause does not catch, so it escapes unwrapped.

The Python dictionary `self._mostRecentBookmark` is an association list
where insertion conses a pair at the front and lookup takes the first
match; this is observationally identical (later insertions for a key win).
A message getter that the Python code compares against `None`
(`get_sub_id`, `get_bookmark`) is an `Option String`, `none` standing for
an absent (empty) header.  An exception raised by a call is an
`Option String` error channel (or an `Except`) in the result; the Boolean
`publishOk` argument of `discard_message` says whether the internal
client's `publish` call itself succeeds or raises.
-/

namespace sow_bookmark_store

/-- A parsed JSON object body: field name to string value, in reverse order
of appearance so that first-match lookup gives the same answer as Python's
last-duplicate-wins dictionary. -/
abbrev Json := List (String × String)

/-- Field lookup in a parsed JSON object. -/
def jsonGet (j : Json) (k : String) : Option String :=
  (j.find? (fun p => p.1 = k)).map (fun p => p.2)

/-- The single-quote character used by the AMPS filter syntax. -/
def squote : Char := '\x27'

/-- JSON single-character backslash escapes, as decoded by `json.loads`.
The `\uXXXX` form is not modelled: no record this store serializes or this
development evaluates contains it. -/
def escChar : Char → Option Char
  | '"' => some '"'
  | '\\' => some '\\'
  | '/' => some '/'
  | 'b' => some (Char.ofNat 8)
  | 'f' => some (Char.ofNat 12)
  | 'n' => some (Char.ofNat 10)
  | 'r' => some (Char.ofNat 13)
  | 't' => some (Char.ofNat 9)
  | _ => none

/-- Body of a JSON string literal after its opening quote: plain characters
up to the closing quote, backslash escapes decoded, raw control characters
(codepoint below 32) rejected, as in `json.loads` strict mode. -/
def parseStringAux : List Char → List Char → Option (String × List Char)
  | _, [] => none
  | acc, c :: cs =>
    if c = '"' then some (⟨acc.reverse⟩, cs)
    else if c = '\\' then
      match cs with
      | [] => none
      | e :: cs2 =>
        match escChar e with
        | some ec => parseStringAux (ec :: acc) cs2
        | none => none
    else if c.toNat < 32 then none
    else parseStringAux (c :: acc) cs

/-- A JSON string literal: an opening quote followed by its body. -/
def parseString (cs : List Char) : Option (String × List Char) :=
  match cs with
  | c :: cs1 => if c = '"' then parseStringAux [] cs1 else none
  | [] => none

/-- JSON insignificant whitespace: space, tab, newline, carriage return. -/
def skipWs : List Char → List Char
  | [] => []
  | c :: rest =>
    if c = ' ' ∨ c = Char.ofNat 9 ∨ c = Char.ofNat 10 ∨ c = Char.ofNat 13 then skipWs rest
    else c :: rest

/-- Members of a JSON object with string values: `"key": "value"` pairs
separated by commas, ended by a closing brace.  Pairs are accumulated by
consing, so the returned list is in reverse order of appearance and a
first-match lookup sees the last duplicate, as a Python dict does.  The
fuel argument only bounds the recursion; callers pass more fuel than there
are characters. -/
def parseMembersAux : Nat → Json → List Char → Option (Json × List Char)
  | 0, _, _ => none
  | fuel + 1, acc, cs =>
    match parseString (skipWs cs) with
    | none => none
    | some (k, cs1) =>
      match skipWs cs1 with
      | c :: cs2 =>
        if c = ':' then
          match parseString (skipWs cs2) with
          | none => none
          | some (v, cs3) =>
            match skipWs cs3 with
            | c2 :: cs4 =>
              if c2 = ',' then parseMembersAux fuel ((k, v) :: acc) cs4
              else if c2 = '\x7d' then some ((k, v) :: acc, cs4) else none
            | [] => none
        else none
      | [] => none

/-- Object part of the parse, after the opening brace was consumed. -/
def jsonParseObj (cs : List Char) : Option Json :=
  match skipWs cs with
  | [] => none
  | c2 :: cs2 =>
    if c2 = '\x7d' then (if skipWs cs2 = [] then some [] else none)
    else
      match parseMembersAux (cs.length + 1) [] cs with
      | some (j, rest) => if skipWs rest = [] then some j else none
      | none => none

/-- Dispatch on the first significant character: this store only ever
stores and reads objects. -/
def jsonParseCore : List Char → Option Json
  | [] => none
  | c :: cs => if c = '\x7b' then jsonParseObj cs else none

/-- Model of `json.loads` on the fragment this store uses: a single JSON
object whose keys and values are strings, nothing after it but
whitespace.  Returns `none` where `json.loads` raises `ValueError`. -/
def jsonParse (s : String) : Option Json :=
  jsonParseCore (skipWs s.data)

/-- A character that the store's unescaped serialization round-trips
unchanged: not a quote, not a backslash, not a control character. -/
def safeChar (c : Char) : Bool :=
  c ≠ '"' && c ≠ '\\' && 32 ≤ c.toNat

/-- A token all of whose characters are JSON-safe. -/
def safeToken (s : String) : Bool :=
  s.data.all safeChar

/-- A token free of the single-quote character of the filter syntax. -/
def noSquote (s : String) : Bool :=
  s.data.all (fun c => c ≠ squote)

/-- A client name that survives both the JSON serialization and the
unescaped filter interpolation. -/
def safeName (s : String) : Bool :=
  safeToken s && noSquote s

/-- The record text built by `discard_message`, the format string
`'\x7b"clientName": "%s", "subId": "%s", "bookmark": "%s"\x7d'` applied with
no escaping of the interpolated values. -/
def publishBody (clientName subId bookmark : String) : String :=
  "\x7b\"clientName\": \"" ++ clientName ++ "\", \"subId\": \"" ++ subId ++
    "\", \"bookmark\": \"" ++ bookmark ++ "\"\x7d"

/-- The key the server derives for a published body on a topic declared
with keys `/clientName` and `/subId`: both fields of the parsed JSON, or
nothing when the body cannot be parsed or lacks a key field. -/
def rowKey (body : String) : Option (String × String) :=
  match jsonParse body with
  | some j =>
    match jsonGet j "clientName", jsonGet j "subId" with
    | some c, some s => some (c, s)
    | _, _ => none
  | none => none

/-- The server side of `publish` on the keyed SOW topic: an upsert on the
body's derived key.  A body the server cannot key is not stored, and no
error reaches the publisher (the module's documented best-effort write
semantics). -/
def serverPublish (rows : List String) (body : String) : List String :=
  match rowKey body with
  | some key => rows.filter (fun r => rowKey r ≠ some key) ++ [body]
  | none => rows

/-- A message returned by the recovery `sow` query: its command and its
raw data text, exactly as stored. -/
structure RawMessage where
  command : String
  data : String
deriving Repr, DecidableEq

/-- A query-result message after `json.loads`: used by the recovery loop
once parsing has succeeded. -/
structure Message where
  command : String
  data : Json
deriving Repr

/-- The single-quote character as a string, for building filter text. -/
def sqStr : String := ⟨[squote]⟩

/-- The filter string `"/clientName = '%s'" % name`, interpolated with no
escaping. -/
def filterOf (name : String) : String :=
  "/clientName = " ++ sqStr ++ name ++ sqStr

/-- Expects an exact sequence of characters and returns what follows. -/
def stripPre : List Char → List Char → Option (List Char)
  | [], cs => some cs
  | _ :: _, [] => none
  | p :: ps, c :: cs => if c = p then stripPre ps cs else none

/-- Reads a filter string literal up to its closing single quote (the
filter syntax has no escape for a quote inside a literal here). -/
def readLit : List Char → Option (List Char × List Char)
  | [] => none
  | c :: rest =>
    if c = squote then some ([], rest)
    else
      match readLit rest with
      | some (lit, r) => some (c :: lit, r)
      | none => none

/-- The text every comparison of the modelled filter fragment starts with. -/
def filterPre : List Char := ("/clientName = " ++ sqStr).data

/-- Parser for the fragment of the server's filter language that the
unescaped interpolation can produce from this code: one or more
`/clientName = 'literal'` comparisons joined by `OR`.  A filter outside
the fragment is invalid and makes the query fail.  The fuel argument only
bounds the recursion; callers pass more fuel than there are characters. -/
def parseFilterAux : Nat → List Char → Option (List String)
  | 0, _ => none
  | fuel + 1, cs =>
    match stripPre filterPre cs with
    | none => none
    | some cs1 =>
      match readLit cs1 with
      | none => none
      | some (lit, rest) =>
        match rest with
        | [] => some [⟨lit⟩]
        | _ =>
          match stripPre (" OR ".data) rest with
          | none => none
          | some cs2 =>
            match parseFilterAux fuel cs2 with
            | some lits => some (⟨lit⟩ :: lits)
            | none => none

/-- Entry point of the filter model. -/
def parseFilter (s : String) : Option (List String) :=
  parseFilterAux (s.data.length + 1) s.data

/-- The `/clientName` field of a stored body, as the filter evaluator
reads it. -/
def rowClientName (body : String) : Option String :=
  match jsonParse body with
  | some j => jsonGet j "clientName"
  | none => none

/-- Whether a stored body satisfies a parsed filter: its client name
equals one of the compared literals. -/
def rowMatches (lits : List String) (body : String) : Bool :=
  match rowClientName body with
  | some c => lits.contains c
  | none => false

/-- The server side of `client.sow(topic, filterStr)`: parse the filter,
fail if it is invalid, otherwise deliver every matching stored body as a
message with command "sow". -/
def sowQuery (rows : List String) (filterStr : String) :
    Except String (List RawMessage) :=
  match parseFilter filterStr with
  | none => Except.error "invalid filter"
  | some lits =>
      Except.ok ((rows.filter (rowMatches lits)).map
        (fun r => { command := "sow", data := r }))

/-- Lookup in the association-list model of the Python dictionary. -/
def mapFind (m : List (String × String)) (k : String) : Option String :=
  (m.find? (fun p => p.1 = k)).map (fun p => p.2)

/-- The state visible to the store: the external SOW topic contents (the
stored body texts) and the in-memory `self._mostRecentBookmark`
dictionary. -/
structure BookmarkState where
  sow : List String
  mostRecentBookmark : List (String × String)
deriving Repr, DecidableEq

/-- One iteration of the recovery loop in `__init__`, on an
already-parsed record: skip messages whose command is not "sow"; insert
`subId → bookmark` when both fields are present in the body, otherwise
skip. -/
def recoverStep (m : List (String × String)) (msg : Message) : List (String × String) :=
  if msg.command ≠ "sow" then m
  else
    match jsonGet msg.data "bookmark", jsonGet msg.data "subId" with
    | some b, some s => (s, b) :: m
    | _, _ => m

/-- The recovery loop of `__init__` over already-parsed query results,
starting from the empty dictionary. -/
def recover (msgs : List Message) : List (String × String) :=
  msgs.foldl recoverStep []

/-- One iteration of the recovery loop on a raw query result: the command
check comes before `json.loads`, a parse failure raises a ValueError that
nothing in `__init__` catches, and a parsed record is handled by
`recoverStep`. -/
def recoverEStep (m : List (String × String)) (msg : RawMessage) :
    Except String (List (String × String)) :=
  if msg.command ≠ "sow" then Except.ok m
  else
    match jsonParse msg.data with
    | none => Except.error "ValueError: invalid JSON in stored record"
    | some j => Except.ok (recoverStep m { command := msg.command, data := j })

/-- The recovery loop of `__init__` over raw query results, stopping at
the first raised error. -/
def recoverE : List (String × String) → List RawMessage →
    Except String (List (String × String))
  | m, [] => Except.ok m
  | m, msg :: rest =>
      match recoverEStep m msg with
      | Except.error e => Except.error e
      | Except.ok m2 => recoverE m2 rest

/-- Construction of the store (`__init__`) against a SOW topic holding
`rows`, for tracked client `name`: issue the query with the interpolated
filter and populate the in-memory map from the results.  A failing query
is re-raised wrapped as "Error reading bookmark store"; a `json.loads`
failure propagates as is. -/
def init (rows : List String) (name : String) : Except String BookmarkState :=
  match sowQuery rows (filterOf name) with
  | Except.error _ => Except.error "Error reading bookmark store"
  | Except.ok msgs =>
      match recoverE [] msgs with
      | Except.error e => Except.error e
      | Except.ok m => Except.ok { sow := rows, mostRecentBookmark := m }

/-- The inbound AMPS message as seen by the store: `get_sub_id()` and
`get_bookmark()`, `none` when the header is absent. -/
structure AmpsMessage where
  sub_id : Option String
  bookmark : Option String
deriving Repr

/-- `get_most_recent(subid)`: the stored bookmark for `subid` if present,
otherwise the epoch sentinel "0". -/
def get_most_recent (st : BookmarkState) (subid : String) : String :=
  match mapFind st.mostRecentBookmark subid with
  | some b => b
  | none => "0"

/-- `is_discarded(message)`: always False, messages are processed in order. -/
def is_discarded (st : BookmarkState) (msg : AmpsMessage) : Bool :=
  false

/-- `log(message)`: always returns the constant token "1". -/
def log (st : BookmarkState) (msg : AmpsMessage) : String :=
  "1"

/-- `persisted(subid, bookmark)`: a no-op. -/
def persisted (st : BookmarkState) (subid bookmark : String) : BookmarkState :=
  st

/-- `discard_message(message)`: if the message lacks a bookmark or a sub id,
return silently; otherwise publish the interpolated record text (the
server upserts it under its parsed key) and, only on success, update the
in-memory map.  `publishOk` says whether the internal client's publish
call succeeds; when it raises, the exception is re-raised wrapped with the
context "Error updating bookmark store" and neither the topic nor the map
changes. -/
def discard_message (publishOk : Bool) (trackedName : String) (st : BookmarkState)
    (msg : AmpsMessage) : BookmarkState × Option String :=
  match msg.bookmark, msg.sub_id with
  | some b, some s =>
      if publishOk then
        ({ sow := serverPublish st.sow (publishBody trackedName s b),
           mostRecentBookmark := (s, b) :: st.mostRecentBookmark }, none)
      else
        (st, some "Error updating bookmark store")
  | _, _ => (st, none)

/-- The deprecated two-argument `discard(subid, seqnumber)`: its body is
`pass`. -/
def discard (st : BookmarkState) (subid seqnumber : String) : BookmarkState × Option String :=
  (st, none)

/-- A sequence of discards of messages carrying the given (subId, bookmark)
pairs, in order, all with a successful publish. -/
def runDiscards (trackedName : String) (st : BookmarkState)
    (l : List (String × String)) : BookmarkState :=
  l.foldl (fun st p => (discard_message true trackedName st ⟨some p.1, some p.2⟩).1) st

/-- The bookmark of the last pair in `l` whose subscription id is `s`. -/
def lastBookmark (l : List (String × String)) (s : String) : Option String :=
  (l.reverse.find? (fun p => p.1 = s)).map (fun p => p.2)

/-- A record of the backing store as the specification describes it, used
to state recovery properties; `rowBody` is its serialized form. -/
structure Row where
  clientName : String
  subId : String
  bookmark : String
deriving DecidableEq, Repr

/-- The stored text of a record, as `discard_message` would publish it. -/
def rowBody (r : Row) : String :=
  publishBody r.clientName r.subId r.bookmark

/-! Helper lemmas about the in-memory map. -/

theorem mapFind_cons (k v : String) (m : List (String × String)) (s : String) :
    mapFind ((k, v) :: m) s = if k = s then some v else mapFind m s := by
  by_cases h : k = s <;> simp [mapFind, h]

theorem lastBookmark_cons (x : String × String) (l : List (String × String)) (s : String) :
    lastBookmark (x :: l) s =
      match lastBookmark l s with
      | some b => some b
      | none => if x.1 = s then some x.2 else none := by
  unfold lastBookmark
  rw [List.reverse_cons, List.find?_append]
  cases h : l.reverse.find? (fun p => p.1 = s) with
  | none => by_cases hx : x.1 = s <;> simp [hx]
  | some p => simp

theorem runDiscards_mapFind (t : String) (l : List (String × String)) :
    ∀ (st : BookmarkState) (s : String),
      mapFind (runDiscards t st l).mostRecentBookmark s =
        match lastBookmark l s with
        | some b => some b
        | none => mapFind st.mostRecentBookmark s := by
  induction l with
  | nil => intro st s; simp [runDiscards, lastBookmark]
  | cons x l ih =>
      intro st s
      have hrun : runDiscards t st (x :: l) =
          runDiscards t ((discard_message true t st ⟨some x.1, some x.2⟩).1) l := rfl
      have hmap : (discard_message true t st ⟨some x.1, some x.2⟩).1.mostRecentBookmark =
          (x.1, x.2) :: st.mostRecentBookmark := rfl
      rw [hrun, ih, lastBookmark_cons]
      cases h : lastBookmark l s with
      | some b => simp
      | none =>
          rw [hmap, mapFind_cons]
          by_cases hx : x.1 = s <;> simp [hx]

theorem find?_eq_of_mem_of_unique {α : Type} (p : α → Bool) (l : List α) :
    ∀ (r : α), r ∈ l → p r = true → (∀ x ∈ l, p x = true → x = r) →
      l.find? p = some r := by
  induction l with
  | nil => intro r hr; simp at hr
  | cons a l ih =>
      intro r hr hp huniq
      by_cases ha : p a = true
      · have haa : a = r := huniq a (List.mem_cons_self a l) ha
        rw [List.find?_cons_of_pos _ ha, haa]
      · rw [List.find?_cons_of_neg _ (by simpa using ha)]
        rcases List.mem_cons.mp hr with h | h
        · subst h; exact absurd hp ha
        · exact ih r h hp (fun x hx hpx => huniq x (List.mem_cons_of_mem _ hx) hpx)

/-! Helper lemmas about the JSON text model. -/

theorem safeChar_spec {c : Char} (h : safeChar c = true) :
    ¬(c = '"') ∧ ¬(c = '\\') ∧ ¬(c.toNat < 32) := by
  simp [safeChar] at h
  exact ⟨h.1.1, h.1.2, by omega⟩

theorem parseStringAux_cons (acc : List Char) (c : Char) (cs : List Char) :
    parseStringAux acc (c :: cs) =
      if c = '"' then some (⟨acc.reverse⟩, cs)
      else if c = '\\' then
        (match cs with
         | [] => none
         | e :: cs2 =>
           match escChar e with
           | some ec => parseStringAux (ec :: acc) cs2
           | none => none)
      else if c.toNat < 32 then none
      else parseStringAux (c :: acc) cs := by
  conv_lhs => rw [parseStringAux.eq_def]

theorem parseStringAux_safe (t : List Char) :
    ∀ (acc rest : List Char), t.all safeChar = true →
      parseStringAux acc (t ++ '"' :: rest) = some (⟨acc.reverse ++ t⟩, rest) := by
  induction t with
  | nil =>
      intro acc rest _
      rw [List.nil_append, parseStringAux_cons, if_pos rfl]
      simp
  | cons c t ih =>
      intro acc rest h
      rw [List.all_cons, Bool.and_eq_true] at h
      obtain ⟨h1, h2, h3⟩ := safeChar_spec h.1
      have hstep : parseStringAux acc ((c :: t) ++ '"' :: rest) =
          parseStringAux (c :: acc) (t ++ '"' :: rest) := by
        rw [List.cons_append, parseStringAux_cons, if_neg h1, if_neg h2, if_neg h3]
      rw [hstep, ih (c :: acc) rest h.2]
      simp

theorem parseString_safe (t : List Char) (rest : List Char) (h : t.all safeChar = true) :
    parseString ('"' :: (t ++ '"' :: rest)) = some (⟨t⟩, rest) := by
  simp only [parseString]
  rw [if_pos trivial, parseStringAux_safe t [] rest h]
  simp

theorem skipWs_space (cs : List Char) : skipWs (' ' :: cs) = skipWs cs := by
  simp [skipWs]

theorem skipWs_cons_ns (c : Char) (cs : List Char)
    (h : ¬(c = ' ' ∨ c = Char.ofNat 9 ∨ c = Char.ofNat 10 ∨ c = Char.ofNat 13)) :
    skipWs (c :: cs) = c :: cs := by
  simp only [skipWs]
  rw [if_neg h]

theorem parseMembersAux_ws (fuel : Nat) (acc : Json) (cs : List Char) :
    parseMembersAux fuel acc (' ' :: cs) = parseMembersAux fuel acc cs := by
  cases fuel with
  | zero => rfl
  | succ f => simp only [parseMembersAux, skipWs_space]

theorem parseMembersAux_member (fuel : Nat) (acc : Json) (k v next : List Char)
    (hk : k.all safeChar = true) (hv : v.all safeChar = true) :
    parseMembersAux (fuel + 1) acc
      ('"' :: (k ++ '"' :: ':' :: ' ' :: '"' :: (v ++ '"' :: ',' :: ' ' :: next))) =
    parseMembersAux fuel ((⟨k⟩, ⟨v⟩) :: acc) next := by
  simp only [parseMembersAux]
  rw [skipWs_cons_ns '"' _ (by decide), parseString_safe k _ hk]
  simp only []
  rw [skipWs_cons_ns ':' _ (by decide)]
  simp only []
  rw [if_pos trivial, skipWs_space, skipWs_cons_ns '"' _ (by decide),
    parseString_safe v _ hv]
  simp only []
  rw [skipWs_cons_ns ',' _ (by decide)]
  simp only []
  rw [if_pos trivial, parseMembersAux_ws]

theorem parseMembersAux_last (fuel : Nat) (acc : Json) (k v : List Char)
    (hk : k.all safeChar = true) (hv : v.all safeChar = true) :
    parseMembersAux (fuel + 1) acc
      ('"' :: (k ++ '"' :: ':' :: ' ' :: '"' :: (v ++ ['"', '\x7d']))) =
    some ((⟨k⟩, ⟨v⟩) :: acc, []) := by
  simp only [parseMembersAux]
  rw [skipWs_cons_ns '"' _ (by decide), parseString_safe k _ hk]
  simp only []
  rw [skipWs_cons_ns ':' _ (by decide)]
  simp only []
  rw [if_pos trivial, skipWs_space, skipWs_cons_ns '"' _ (by decide),
    parseString_safe v _ hv]
  simp only []
  rw [skipWs_cons_ns '\x7d' _ (by decide)]
  simp only []
  rw [if_neg (by decide), if_pos trivial]

theorem jsonParse_publishBody (c s b : String)
    (hc : safeToken c = true) (hs : safeToken s = true) (hb : safeToken b = true) :
    jsonParse (publishBody c s b) =
      some [("bookmark", b), ("subId", s), ("clientName", c)] := by
  have l1 : ("\x7b\"clientName\": \"").data =
      '\x7b' :: '"' :: 'c' :: 'l' :: 'i' :: 'e' :: 'n' :: 't' :: 'N' :: 'a' :: 'm' :: 'e' ::
        '"' :: ':' :: ' ' :: ['"'] := by decide
  have l2 : ("\", \"subId\": \"").data =
      '"' :: ',' :: ' ' :: '"' :: 's' :: 'u' :: 'b' :: 'I' :: 'd' ::
        '"' :: ':' :: ' ' :: ['"'] := by decide
  have l3 : ("\", \"bookmark\": \"").data =
      '"' :: ',' :: ' ' :: '"' :: 'b' :: 'o' :: 'o' :: 'k' :: 'm' :: 'a' :: 'r' :: 'k' ::
        '"' :: ':' :: ' ' :: ['"'] := by decide
  have l4 : ("\"\x7d").data = ['"', '\x7d'] := by decide
  have hdata : (publishBody c s b).data =
      '\x7b' :: '"' :: (['c', 'l', 'i', 'e', 'n', 't', 'N', 'a', 'm', 'e'] ++
        '"' :: ':' :: ' ' :: '"' :: (c.data ++ '"' :: ',' :: ' ' ::
          ('"' :: (['s', 'u', 'b', 'I', 'd'] ++
            '"' :: ':' :: ' ' :: '"' :: (s.data ++ '"' :: ',' :: ' ' ::
              ('"' :: (['b', 'o', 'o', 'k', 'm', 'a', 'r', 'k'] ++
                '"' :: ':' :: ' ' :: '"' :: (b.data ++ ['"', '\x7d'])))))))) := by
    simp only [publishBody, String.data_append, l1, l2, l3, l4]
    simp [List.append_assoc]
  have hfuel : ∀ n : Nat,
      parseMembersAux (n + 3) []
        ('"' :: (['c', 'l', 'i', 'e', 'n', 't', 'N', 'a', 'm', 'e'] ++
          '"' :: ':' :: ' ' :: '"' :: (c.data ++ '"' :: ',' :: ' ' ::
            ('"' :: (['s', 'u', 'b', 'I', 'd'] ++
              '"' :: ':' :: ' ' :: '"' :: (s.data ++ '"' :: ',' :: ' ' ::
                ('"' :: (['b', 'o', 'o', 'k', 'm', 'a', 'r', 'k'] ++
                  '"' :: ':' :: ' ' :: '"' :: (b.data ++ ['"', '\x7d']))))))))) =
      some ([("bookmark", b), ("subId", s), ("clientName", c)], []) := by
    intro n
    rw [show n + 3 = (n + 2) + 1 from rfl,
      parseMembersAux_member (n + 2) []
        ['c', 'l', 'i', 'e', 'n', 't', 'N', 'a', 'm', 'e'] c.data _ (by decide) hc]
    rw [show n + 2 = (n + 1) + 1 from rfl]
    rw [parseMembersAux_member (n + 1) _ ['s', 'u', 'b', 'I', 'd'] s.data _ (by decide) hs]
    rw [parseMembersAux_last n _ ['b', 'o', 'o', 'k', 'm', 'a', 'r', 'k'] b.data (by decide) hb]
  unfold jsonParse
  rw [hdata, skipWs_cons_ns '\x7b' _ (by decide)]
  simp only [jsonParseCore]
  rw [if_pos trivial]
  unfold jsonParseObj
  rw [skipWs_cons_ns '"' _ (by decide)]
  simp only []
  rw [if_neg (by decide)]
  have hlen : ('"' :: (['c', 'l', 'i', 'e', 'n', 't', 'N', 'a', 'm', 'e'] ++
      '"' :: ':' :: ' ' :: '"' :: (c.data ++ '"' :: ',' :: ' ' ::
        ('"' :: (['s', 'u', 'b', 'I', 'd'] ++
          '"' :: ':' :: ' ' :: '"' :: (s.data ++ '"' :: ',' :: ' ' ::
            ('"' :: (['b', 'o', 'o', 'k', 'm', 'a', 'r', 'k'] ++
              '"' :: ':' :: ' ' :: '"' :: (b.data ++ ['"', '\x7d']))))))))).length + 1 =
      (('"' :: (['c', 'l', 'i', 'e', 'n', 't', 'N', 'a', 'm', 'e'] ++
      '"' :: ':' :: ' ' :: '"' :: (c.data ++ '"' :: ',' :: ' ' ::
        ('"' :: (['s', 'u', 'b', 'I', 'd'] ++
          '"' :: ':' :: ' ' :: '"' :: (s.data ++ '"' :: ',' :: ' ' ::
            ('"' :: (['b', 'o', 'o', 'k', 'm', 'a', 'r', 'k'] ++
              '"' :: ':' :: ' ' :: '"' :: (b.data ++ ['"', '\x7d']))))))))).length - 2) + 3 := by
    simp [List.length_append]
  rw [hlen, hfuel]
  rfl

/-! Helper lemmas about the filter text model. -/

theorem stripPre_self (p : List Char) : ∀ cs, stripPre p (p ++ cs) = some cs := by
  induction p with
  | nil => intro cs; rfl
  | cons c p ih =>
      intro cs
      simp only [List.cons_append, stripPre]
      rw [if_pos trivial]
      exact ih cs

theorem readLit_safe (t : List Char) :
    ∀ (rest : List Char), t.all (fun c => c ≠ squote) = true →
      readLit (t ++ squote :: rest) = some (t, rest) := by
  induction t with
  | nil =>
      intro rest _
      simp only [List.nil_append, readLit]
      rw [if_pos trivial]
  | cons c t ih =>
      intro rest h
      rw [List.all_cons, Bool.and_eq_true] at h
      have hc : ¬(c = squote) := by simpa using h.1
      have ht2 : readLit (t.append (squote :: rest)) = some (t, rest) := ih rest h.2
      simp only [List.cons_append, readLit]
      rw [if_neg hc, ht2]

theorem filterOf_data (name : String) :
    (filterOf name).data = filterPre ++ (name.data ++ [squote]) := by
  simp [filterOf, filterPre, sqStr, String.data_append, List.append_assoc]

theorem parseFilter_name (name : String) (h : noSquote name = true) :
    parseFilter (filterOf name) = some [name] := by
  unfold parseFilter
  rw [filterOf_data]
  simp only [parseFilterAux]
  rw [stripPre_self]
  simp only []
  rw [readLit_safe name.data [] h]

/-! Helper lemmas about stored rows, the query and the recovery loop. -/

theorem rowKey_publishBody (c s b : String)
    (hc : safeToken c = true) (hs : safeToken s = true) (hb : safeToken b = true) :
    rowKey (publishBody c s b) = some (c, s) := by
  unfold rowKey
  rw [jsonParse_publishBody c s b hc hs hb]
  simp [jsonGet]

theorem rowClientName_publishBody (c s b : String)
    (hc : safeToken c = true) (hs : safeToken s = true) (hb : safeToken b = true) :
    rowClientName (publishBody c s b) = some c := by
  unfold rowClientName
  rw [jsonParse_publishBody c s b hc hs hb]
  simp [jsonGet]

theorem rowMatches_publishBody (n c s b : String)
    (hc : safeToken c = true) (hs : safeToken s = true) (hb : safeToken b = true) :
    rowMatches [n] (publishBody c s b) = (c == n) := by
  unfold rowMatches
  rw [rowClientName_publishBody c s b hc hs hb]
  simp [List.contains]
  by_cases hq : c = n <;> simp [hq]

theorem recoverE_append (l1 l2 : List RawMessage) :
    ∀ m, recoverE m (l1 ++ l2) =
      match recoverE m l1 with
      | Except.ok m2 => recoverE m2 l2
      | Except.error e => Except.error e := by
  induction l1 with
  | nil => intro m; rfl
  | cons x l1 ih =>
      intro m
      rw [List.cons_append]
      simp only [recoverE]
      cases h : recoverEStep m x with
      | error e => simp only [h]
      | ok m2 => simp only [h]; exact ih m2

theorem recoverE_ok (msgs : List RawMessage) :
    ∀ m, (∀ x ∈ msgs, x.command = "sow" → (jsonParse x.data).isSome = true) →
      ∃ m2, recoverE m msgs = Except.ok m2 := by
  induction msgs with
  | nil => intro m h; exact ⟨m, rfl⟩
  | cons x msgs ih =>
      intro m h
      obtain ⟨m1, hm1⟩ : ∃ m1, recoverEStep m x = Except.ok m1 := by
        unfold recoverEStep
        by_cases hcmd : x.command = "sow"
        · rw [if_neg (fun hne => hne hcmd)]
          have hp := h x (List.mem_cons_self x msgs) hcmd
          cases hj : jsonParse x.data with
          | none => rw [hj] at hp; simp at hp
          | some j => exact ⟨_, rfl⟩
        · rw [if_pos hcmd]; exact ⟨m, rfl⟩
      simp only [recoverE, hm1]
      exact ih m1 (fun y hy => h y (List.mem_cons_of_mem _ hy))

theorem recoverE_rowBodies (recs : List Row) :
    ∀ m, (∀ r ∈ recs, safeToken r.clientName = true ∧ safeToken r.subId = true ∧
        safeToken r.bookmark = true) →
      recoverE m (recs.map (fun r => { command := "sow", data := rowBody r })) =
        Except.ok (recs.reverse.map (fun r => (r.subId, r.bookmark)) ++ m) := by
  induction recs with
  | nil => intro m h; rfl
  | cons r recs ih =>
      intro m h
      obtain ⟨hc, hs, hb⟩ := h r (List.mem_cons_self r recs)
      have hstep : recoverEStep m { command := "sow", data := rowBody r } =
          Except.ok ((r.subId, r.bookmark) :: m) := by
        unfold recoverEStep
        rw [if_neg (by simp)]
        rw [show rowBody r = publishBody r.clientName r.subId r.bookmark from rfl,
          jsonParse_publishBody _ _ _ hc hs hb]
        simp [recoverStep, jsonGet]
      rw [List.map_cons]
      simp only [recoverE, hstep]
      rw [ih ((r.subId, r.bookmark) :: m) (fun y hy => h y (List.mem_cons_of_mem _ hy))]
      simp [List.reverse_cons, List.map_append, List.append_assoc]

theorem sowQuery_name (rows : List String) (name : String) (h : noSquote name = true) :
    sowQuery rows (filterOf name) =
      Except.ok ((rows.filter (rowMatches [name])).map
        (fun r => { command := "sow", data := r })) := by
  unfold sowQuery
  rw [parseFilter_name name h]

theorem init_eq (rows : List String) (name : String) (h : noSquote name = true) :
    init rows name =
      match recoverE [] ((rows.filter (rowMatches [name])).map
          (fun r => { command := "sow", data := r })) with
      | Except.error e => Except.error e
      | Except.ok m => Except.ok { sow := rows, mostRecentBookmark := m } := by
  unfold init
  rw [sowQuery_name rows name h]

/-! Helper lemmas about the server upsert and the in-memory map shape. -/

theorem mapFind_entries (l : List Row) (x : String) :
    mapFind (l.map (fun r => (r.subId, r.bookmark))) x =
      (l.find? (fun r => r.subId = x)).map (fun r => r.bookmark) := by
  unfold mapFind
  rw [List.find?_map, Option.map_map]
  rfl

theorem safeName_split {s : String} (h : safeName s = true) :
    safeToken s = true ∧ noSquote s = true := by
  simpa [safeName] using h

/-! Claim theorems. -/

/-- C1: for every sequence of discard calls issued in delivery order for a
given subscription id (all publishes succeeding), after the sequence
`get_most_recent(subId)` returns exactly the bookmark token of the most
recently discarded message for that subscription. -/
theorem c1_get_most_recent_tracks_last_discard (t : String) (st : BookmarkState)
    (l : List (String × String)) (s b : String)
    (h : lastBookmark l s = some b) :
    get_most_recent (runDiscards t st l) s = b := by
  unfold get_most_recent
  rw [runDiscards_mapFind t l st s, h]

/-- Witness for C1 at a concrete discard sequence. -/
theorem c1_witness :
    lastBookmark [("s1", "b1"), ("s1", "b2"), ("s2", "b3")] "s1" = some "b2" ∧
    get_most_recent (runDiscards "client" ⟨[], []⟩
      [("s1", "b1"), ("s1", "b2"), ("s2", "b3")]) "s1" = "b2" :=
  ⟨by decide,
   c1_get_most_recent_tracks_last_discard "client" ⟨[], []⟩ _ "s1" "b2" (by decide)⟩

/-- C2 counterexample: the claim fails as stated because the recovery filter
is built by unescaped interpolation.  For the tracked client name
`x' OR /clientName = 'y` over a store holding one record of client "y",
construction succeeds and puts that record's (subId, bookmark) into the
map, although the record's clientName differs from the tracked name, so
records of a different client are not excluded. -/
theorem c2_counterexample :
    (init [publishBody "y" "S" "B"]
        ("x" ++ sqStr ++ " OR /clientName = " ++ sqStr ++ "y")).toOption.map
      (fun st => st.mostRecentBookmark) = some [("S", "B")] ∧
    rowClientName (publishBody "y" "S" "B") = some "y" ∧
    ¬("y" = "x" ++ sqStr ++ " OR /clientName = " ++ sqStr ++ "y") :=
  ⟨by decide, by decide, by decide⟩

/-- C2 amended: for a tracked client name free of single quotes and
JSON-safe, over a store whose rows are records serialized by the store's
own format with JSON-safe fields and pairwise-distinct
(clientName, subId) keys, construction succeeds, `get_most_recent(S)`
returns `B` for every record `\x7bclientName: c, subId: S, bookmark: B\x7d`
of the tracked client, and every entry of the in-memory map comes from a
record of the tracked client. -/
theorem c2_amended_recovery_round_trip (recs : List Row) (c : String)
    (hc : safeName c = true)
    (hrecs : ∀ r ∈ recs, safeToken r.clientName = true ∧ safeToken r.subId = true ∧
      safeToken r.bookmark = true)
    (hkeys : (recs.map (fun r => (r.clientName, r.subId))).Nodup) :
    ∃ st, init (recs.map rowBody) c = Except.ok st ∧
      (∀ r ∈ recs, r.clientName = c →
        get_most_recent st r.subId = r.bookmark) ∧
      (∀ s b, (s, b) ∈ st.mostRecentBookmark →
        ∃ r ∈ recs, r.clientName = c ∧ r.subId = s ∧ r.bookmark = b) := by
  have hnq : noSquote c = true := (safeName_split hc).2
  have hfilt : (recs.map rowBody).filter (rowMatches [c]) =
      (recs.filter (fun r => r.clientName == c)).map rowBody := by
    rw [List.filter_map]
    have hcg : recs.filter (rowMatches [c] ∘ rowBody) =
        recs.filter (fun r => r.clientName == c) :=
      List.filter_congr (fun r hr => by
        obtain ⟨h1, h2, h3⟩ := hrecs r hr
        simpa using rowMatches_publishBody c r.clientName r.subId r.bookmark h1 h2 h3)
    rw [hcg]
  have hsub : ∀ r ∈ recs.filter (fun r => r.clientName == c),
      safeToken r.clientName = true ∧ safeToken r.subId = true ∧
        safeToken r.bookmark = true :=
    fun r hr => hrecs r (List.mem_filter.mp hr).1
  have hrec : recoverE [] (((recs.filter (fun r => r.clientName == c)).map rowBody).map
      (fun r => ({ command := "sow", data := r } : RawMessage))) =
      Except.ok ((recs.filter (fun r => r.clientName == c)).reverse.map
        (fun r => (r.subId, r.bookmark)) ++ []) := by
    rw [List.map_map]
    exact recoverE_rowBodies _ [] hsub
  rw [init_eq _ _ hnq, hfilt, hrec]
  refine ⟨⟨recs.map rowBody, (recs.filter (fun r => r.clientName == c)).reverse.map
    (fun r => (r.subId, r.bookmark)) ++ []⟩, rfl, ?_, ?_⟩
  · intro r hr hrc
    unfold get_most_recent
    rw [List.append_nil, mapFind_entries]
    have hmem : r ∈ (recs.filter (fun x => x.clientName == c)).reverse := by
      rw [List.mem_reverse]
      exact List.mem_filter.mpr ⟨hr, by simp [hrc]⟩
    have hfind : (recs.filter (fun x => x.clientName == c)).reverse.find?
        (fun x => x.subId = r.subId) = some r := by
      apply find?_eq_of_mem_of_unique _ _ r hmem (by simp)
      intro x hx hpx
      have hx2 := List.mem_filter.mp (List.mem_reverse.mp hx)
      have hxc : x.clientName = c := by simpa using hx2.2
      have hxs : x.subId = r.subId := by simpa using hpx
      exact List.inj_on_of_nodup_map hkeys hx2.1 hr (by rw [hxc, hrc, hxs])
    rw [hfind]
    rfl
  · intro s b hmem
    rw [List.append_nil] at hmem
    rcases List.mem_map.mp hmem with ⟨r, hr, hrb⟩
    have hr2 := List.mem_filter.mp (List.mem_reverse.mp hr)
    refine ⟨r, hr2.1, by simpa using hr2.2, ?_, ?_⟩
    · exact congrArg Prod.fst hrb
    · exact congrArg Prod.snd hrb

/-- Witness for C2 at a concrete pre-populated store, including a record
of a different client. -/
theorem c2_witness :
    (safeName "C" = true ∧
      (∀ r ∈ [(⟨"C", "S1", "B1"⟩ : Row), ⟨"C", "S2", "B2"⟩, ⟨"D", "S1", "X"⟩],
        safeToken r.clientName = true ∧ safeToken r.subId = true ∧
          safeToken r.bookmark = true) ∧
      (([(⟨"C", "S1", "B1"⟩ : Row), ⟨"C", "S2", "B2"⟩, ⟨"D", "S1", "X"⟩].map
        (fun r => (r.clientName, r.subId))).Nodup)) ∧
    (∃ st, init ([(⟨"C", "S1", "B1"⟩ : Row), ⟨"C", "S2", "B2"⟩, ⟨"D", "S1", "X"⟩].map
          rowBody) "C" = Except.ok st ∧
      (∀ r ∈ [(⟨"C", "S1", "B1"⟩ : Row), ⟨"C", "S2", "B2"⟩, ⟨"D", "S1", "X"⟩],
        r.clientName = "C" →
        get_most_recent st r.subId = r.bookmark) ∧
      (∀ s b, (s, b) ∈ st.mostRecentBookmark →
        ∃ r ∈ [(⟨"C", "S1", "B1"⟩ : Row), ⟨"C", "S2", "B2"⟩, ⟨"D", "S1", "X"⟩],
          r.clientName = "C" ∧ r.subId = s ∧ r.bookmark = b)) :=
  ⟨⟨by decide, by decide, by decide⟩,
   c2_amended_recovery_round_trip _ "C" (by decide) (by decide) (by decide)⟩

/-- C3 counterexample: the claim fails as stated because the record text is
built with no escaping and read back through `json.loads`.  Discarding the
two-character bookmark backslash-n for subscription "S" and rebuilding the
index recovers the one-character newline bookmark instead. -/
theorem c3_counterexample :
    (init (discard_message true "C" ⟨[], []⟩ ⟨some "S", some "\\n"⟩).1.sow "C").toOption.map
      (fun st => get_most_recent st "S") = some "\n" ∧
    ¬(("\n" : String) = "\\n") :=
  ⟨by decide, by decide⟩

/-- C3 amended: for a single-quote-free, JSON-safe tracked name and
JSON-safe subId and bookmark, over a store whose rows all parse,
discarding (s, b) and then constructing a fresh index for the same tracked
client over the same store succeeds and yields `get_most_recent(s) = b`. -/
theorem c3_amended_discard_then_recover (st : BookmarkState) (t s b : String)
    (ht : safeName t = true) (hs : safeToken s = true) (hb : safeToken b = true)
    (hrows : ∀ r ∈ st.sow, (jsonParse r).isSome = true) :
    (init (discard_message true t st ⟨some s, some b⟩).1.sow t).map
      (fun st2 => get_most_recent st2 s) = Except.ok b := by
  obtain ⟨htt, htq⟩ := safeName_split ht
  have hsow : (discard_message true t st ⟨some s, some b⟩).1.sow =
      st.sow.filter (fun r => rowKey r ≠ some (t, s)) ++ [publishBody t s b] := by
    show serverPublish st.sow (publishBody t s b) = _
    unfold serverPublish
    rw [rowKey_publishBody t s b htt hs hb]
  rw [hsow, init_eq _ _ htq, List.filter_append]
  have hbody : rowMatches [t] (publishBody t s b) = true := by
    rw [rowMatches_publishBody t t s b htt hs hb]
    simp
  have hsingle : [publishBody t s b].filter (rowMatches [t]) = [publishBody t s b] := by
    simp [hbody]
  rw [hsingle, List.map_append, recoverE_append]
  have hA : ∀ x ∈ ((st.sow.filter (fun r => rowKey r ≠ some (t, s))).filter
        (rowMatches [t])).map (fun r => ({ command := "sow", data := r } : RawMessage)),
      x.command = "sow" → (jsonParse x.data).isSome = true := by
    intro x hx _
    rcases List.mem_map.mp hx with ⟨r, hr, hxr⟩
    have hr0 : r ∈ st.sow := (List.mem_filter.mp (List.mem_filter.mp hr).1).1
    rw [← hxr]
    exact hrows r hr0
  obtain ⟨mA, hmA⟩ := recoverE_ok _ [] hA
  rw [hmA]
  simp only []
  have hlast : recoverE mA [({ command := "sow", data := publishBody t s b } : RawMessage)] =
      Except.ok ((s, b) :: mA) := by
    have hstep : recoverEStep mA
        ({ command := "sow", data := publishBody t s b } : RawMessage) =
        Except.ok ((s, b) :: mA) := by
      unfold recoverEStep
      rw [if_neg (by simp), jsonParse_publishBody t s b htt hs hb]
      simp [recoverStep, jsonGet]
    simp only [recoverE, hstep]
  simp only [List.map_cons, List.map_nil]
  rw [hlast]
  simp [Except.map, get_most_recent, mapFind_cons]

/-- Witness for C3 amended, the specification's own end-to-end example:
discard (subId "orders-1", bookmark "42") over an empty store, reconstruct,
recover "42". -/
theorem c3_amended_witness :
    (safeName "C" = true ∧ safeToken "orders-1" = true ∧ safeToken "42" = true ∧
      (∀ r ∈ (⟨[], []⟩ : BookmarkState).sow, (jsonParse r).isSome = true)) ∧
    (init (discard_message true "C" ⟨[], []⟩ ⟨some "orders-1", some "42"⟩).1.sow "C").map
      (fun st2 => get_most_recent st2 "orders-1") = Except.ok "42" :=
  ⟨⟨by decide, by decide, by decide, by decide⟩,
   c3_amended_discard_then_recover ⟨[], []⟩ "C" "orders-1" "42"
     (by decide) (by decide) (by decide) (by decide)⟩

/-- C4: when the publish raises during `discard_message`, the state (in
particular the in-memory map, hence every `get_most_recent` answer) is
unchanged, and the error surfaces to the caller wrapped with added
context. -/
theorem c4_publish_failure_no_phantom (t : String) (st : BookmarkState) (s b : String) :
    (discard_message false t st ⟨some s, some b⟩).1 = st ∧
    (∀ x, get_most_recent (discard_message false t st ⟨some s, some b⟩).1 x =
      get_most_recent st x) ∧
    (discard_message false t st ⟨some s, some b⟩).2 =
      some "Error updating bookmark store" :=
  ⟨rfl, fun _ => rfl, rfl⟩

/-- C5: a message missing its subscription id or its bookmark makes
`discard_message` a silent no-op: state unchanged, no error raised. -/
theorem c5_discard_missing_fields_noop (publishOk : Bool) (t : String)
    (st : BookmarkState) (msg : AmpsMessage)
    (h : msg.sub_id = none ∨ msg.bookmark = none) :
    discard_message publishOk t st msg = (st, none) := by
  obtain ⟨si, bk⟩ := msg
  cases bk with
  | none => rfl
  | some b =>
      cases si with
      | none => rfl
      | some s => simp at h

/-- Witness for C5 at a concrete message missing its subscription id. -/
theorem c5_witness :
    ((⟨none, some "b"⟩ : AmpsMessage).sub_id = none ∨
      (⟨none, some "b"⟩ : AmpsMessage).bookmark = none) ∧
    discard_message true "client" ⟨[], []⟩ ⟨none, some "b"⟩ = (⟨[], []⟩, none) :=
  ⟨Or.inl rfl,
   c5_discard_missing_fields_noop true "client" ⟨[], []⟩ ⟨none, some "b"⟩ (Or.inl rfl)⟩

/-- C7: a subscription id with no entry in the in-memory map gets the epoch
sentinel "0" from `get_most_recent`. -/
theorem c7_get_most_recent_epoch (st : BookmarkState) (s : String)
    (h : mapFind st.mostRecentBookmark s = none) :
    get_most_recent st s = "0" := by
  unfold get_most_recent
  rw [h]

/-- Witness for C7 on the freshly constructed empty store. -/
theorem c7_witness :
    mapFind (BookmarkState.mk [] []).mostRecentBookmark "never" = none ∧
    get_most_recent ⟨[], []⟩ "never" = "0" :=
  ⟨rfl, c7_get_most_recent_epoch ⟨[], []⟩ "never" rfl⟩

/-- C8: `is_discarded` returns False for every state and message. -/
theorem c8_is_discarded_always_false (st : BookmarkState) (msg : AmpsMessage) :
    is_discarded st msg = false :=
  rfl

/-- C9: the deprecated two-argument `discard(subid, seqnumber)` is a pure
no-op: state unchanged, nothing published, no error raised. -/
theorem c9_deprecated_discard_noop (st : BookmarkState) (subid seqnumber : String) :
    discard st subid seqnumber = (st, none) :=
  rfl

/-- C10: a query result whose command is not "sow", or whose body lacks a
"bookmark" or a "subId" field, contributes no entry during recovery and
the remaining records are processed as if it were absent. -/
theorem c10_recovery_skips_malformed (pre post : List Message) (msg : Message)
    (h : msg.command ≠ "sow" ∨ jsonGet msg.data "bookmark" = none ∨
      jsonGet msg.data "subId" = none) :
    recover (pre ++ msg :: post) = recover (pre ++ post) := by
  have hstep : ∀ m, recoverStep m msg = m := by
    intro m
    unfold recoverStep
    rcases h with h | h | h
    · rw [if_pos h]
    · by_cases hc : msg.command = "sow"
      · rw [if_neg (by simp [hc]), h]
      · rw [if_pos hc]
    · by_cases hc : msg.command = "sow"
      · rw [if_neg (by simp [hc]), h]
        cases jsonGet msg.data "bookmark" <;> rfl
      · rw [if_pos hc]
  unfold recover
  rw [List.foldl_append, List.foldl_append, List.foldl_cons, hstep]

/-- Witness for C10 at a concrete query result list. -/
theorem c10_witness :
    ((Message.mk "group_begin" []).command ≠ "sow" ∨
      jsonGet (Message.mk "group_begin" []).data "bookmark" = none ∨
      jsonGet (Message.mk "group_begin" []).data "subId" = none) ∧
    recover ([⟨"sow", [("clientName", "C"), ("subId", "S"), ("bookmark", "B")]⟩] ++
        ⟨"group_begin", []⟩ :: []) =
      recover ([⟨"sow", [("clientName", "C"), ("subId", "S"), ("bookmark", "B")]⟩] ++ []) :=
  ⟨Or.inl (by decide),
   c10_recovery_skips_malformed _ [] _ (Or.inl (by decide))⟩

end sow_bookmark_store
